import Mathlib

/-!
Verification of the SemanticCaching repository's core cache-tier logic.

The Python sources embedded here:
* `semantic_cache/session_cache.py` — `SessionCache` (the spec's BoundedCache):
  an ordered map (Python `OrderedDict`) with LRU eviction, TTL expiry and
  hit/miss counters, guarded by a lock (single-threaded semantics modelled).
* `semantic_cache/persistent_cache.py` — `PersistentCache` (the spec's
  DurableStore): a thin adapter over Redis.  The Redis service itself is an
  external collaborator; its key-value-with-TTL behaviour is modelled from the
  spec's DurableStore contract (per-key `setex`/`get`/`delete` semantics).
* `semantic_cache/vector_store.py` — `VectorStore` (the spec's VectorIndex):
  a FAISS `IndexIDMap` over `IndexFlatIP` together with the
  `key_to_id`/`id_to_key` mappings and the monotone `next_id` counter.
  Inner-product scores are modelled over `ℚ`.
* `semantic_cache/cache_manager.py` — `CacheManager` (the spec's
  CacheOrchestrator): the three-tier `get`/`set`/`invalidate` protocol.

Modelling conventions: wall-clock instants are `Int` parameters threaded into
every operation (`time.time()` readings); a Python function that can raise is
embedded with an `Except` result whose error carries the state at the moment
of the raise; a `try/except` that swallows the error is embedded by matching
on that `Except` and continuing with the carried state.  The SHA-256
fingerprint `get_cache_key` is passed as a function parameter `fp`
(deterministic by purity, exactly the property the orchestrator relies on).
The embedder `generate_embedding` is a parameter `embed : String → Option _`
(`none` models the raise after exhausted retries).
-/

/-- State of `SessionCache` (session_cache.py).  `cache` models the
`OrderedDict` as a list of `(key, value, timestamp)` entries, least recently
used first (Python evicts with `popitem(last=False)`, i.e. from the head).
The Python class has exactly two counters, `hits` and `misses`. -/
structure SessionCache (α : Type) where
  cache : List (String × α × Int)
  max_size : Nat
  ttl : Int
  hits : Nat
  misses : Nat
  deriving Repr, DecidableEq

/-- `SessionCache.__init__(max_size=100, ttl=300)`: empty ordered dict,
counters at zero. -/
def SessionCache.init (α : Type) (max_size : Nat := 100) (ttl : Int := 300) :
    SessionCache α :=
  { cache := [], max_size := max_size, ttl := ttl, hits := 0, misses := 0 }

/-- `SessionCache.set`: `self.cache[key] = (value, time.time())` —
a plain `OrderedDict` assignment, which REPLACES IN PLACE when the key is
already present (it does not move the key to the end) and appends at the
most-recently-used end when the key is new; then, if the size exceeds
`max_size`, one `popitem(last=False)` evicts the head (the LRU entry). -/
def SessionCache.set (c : SessionCache α) (key : String) (value : α)
    (now : Int) : SessionCache α :=
  let inserted :=
    if c.cache.any (fun e => e.1 == key) then
      c.cache.map (fun e => if e.1 == key then (key, value, now) else e)
    else
      c.cache ++ [(key, value, now)]
  let bounded := if inserted.length > c.max_size then inserted.tail else inserted
  { c with cache := bounded }

/-- `SessionCache.get`: on a present, non-expired key
(`time.time() - timestamp < self.ttl`) increments `hits`, calls
`move_to_end(key)` (modelled by filtering the entry out and appending it,
value and timestamp unchanged) and returns the value; on a present but
expired key increments `misses` and deletes the entry; on an absent key
increments `misses`.  Returns the new state with the Python return value. -/
def SessionCache.get (c : SessionCache α) (key : String) (now : Int) :
    SessionCache α × Option α :=
  match c.cache.find? (fun e => e.1 == key) with
  | some (_, value, timestamp) =>
      if now - timestamp < c.ttl then
        ({ c with hits := c.hits + 1,
                  cache := c.cache.filter (fun e => !(e.1 == key))
                             ++ [(key, value, timestamp)] },
         some value)
      else
        ({ c with misses := c.misses + 1,
                  cache := c.cache.filter (fun e => !(e.1 == key)) },
         none)
  | none => ({ c with misses := c.misses + 1 }, none)

/-- `SessionCache.delete`: removes the entry if present, idempotent. -/
def SessionCache.delete (c : SessionCache α) (key : String) : SessionCache α :=
  { c with cache := c.cache.filter (fun e => !(e.1 == key)) }

/-- Modelled from the spec: the DurableStore collaborator behind
`persistent_cache.py` (a Redis service, external to the repository) is a
per-key atomic key-value store with per-entry TTL; `setex` stores the value
with expiry `now + ttl`, `get` returns it while unexpired, `delete` removes
it.  `PersistentCache` (persistent_cache.py) serialises values and forwards
to that service; serialisation round-trips, so it is not modelled. -/
structure PersistentCache (α : Type) where
  store : List (String × α × Int)
  ttl : Int
  deriving Repr, DecidableEq

/-- `PersistentCache.set`: `client.setex(key, self.ttl, value)` — stores the
value under the key with expiry time `now + ttl`, replacing any previous
entry for that key. -/
def PersistentCache.set (p : PersistentCache α) (key : String) (value : α)
    (now : Int) : PersistentCache α :=
  { p with store := (key, value, now + p.ttl)
                      :: p.store.filter (fun e => !(e.1 == key)) }

/-- `PersistentCache.get`: returns the stored value if present and not yet
expired, otherwise `None`. -/
def PersistentCache.get (p : PersistentCache α) (key : String) (now : Int) :
    Option α :=
  match p.store.find? (fun e => e.1 == key) with
  | some (_, value, expiry) => if now < expiry then some value else none
  | none => none

/-- `PersistentCache.delete`: removes the key. -/
def PersistentCache.delete (p : PersistentCache α) (key : String) :
    PersistentCache α :=
  { p with store := p.store.filter (fun e => !(e.1 == key)) }

/-- `config.VECTOR_DIM = 768` (config.py, hardcoded). -/
def VECTOR_DIM : Nat := 768

/-- `config.SIMILARITY_THRESHOLD` (config.py), default `0.5`.  Defined in the
configuration but never consulted by `cache_manager.py`. -/
def SIMILARITY_THRESHOLD : ℚ := 1 / 2

/-- State of `VectorStore` (vector_store.py) with `use_subprocess=False` (the
default, inline mode).  `entries` models the FAISS `IndexIDMap` contents as
`(id, vector)` pairs in insertion order; `key_to_id`, `id_to_key` and
`next_id` are the Python instance attributes.  Vectors are lists of `ℚ`
standing for the float32 arrays; `dim` is set from `config.VECTOR_DIM`. -/
structure VectorStore where
  dim : Nat
  entries : List (Nat × List ℚ)
  key_to_id : List (String × Nat)
  id_to_key : List (Nat × String)
  next_id : Nat
  deriving Repr, DecidableEq

/-- `VectorStore.__init__`: fresh index of dimension `config.VECTOR_DIM`,
empty mappings, counter at zero. -/
def VectorStore.init : VectorStore :=
  { dim := VECTOR_DIM, entries := [], key_to_id := [], id_to_key := [],
    next_id := 0 }

/-- Message of the `ValueError` raised on a dimension mismatch. -/
def dimensionMismatchMsg : String := "Vector dimension mismatch"

/-- `VectorStore.add_vector`: raises `ValueError` when
`vector.shape[0] != self.dim` — before any attribute is touched, so the
error carries the unchanged state.  Otherwise takes `cur_id = next_id`,
increments `next_id`, adds `(vector, cur_id)` to the index and records both
mapping directions (dict assignment replaces any stale binding). -/
def VectorStore.add_vector (s : VectorStore) (key : String)
    (vector : List ℚ) : Except (String × VectorStore) VectorStore :=
  if vector.length ≠ s.dim then
    .error (dimensionMismatchMsg, s)
  else
    let cur_id := s.next_id
    .ok { s with
          next_id := s.next_id + 1,
          entries := s.entries ++ [(cur_id, vector)],
          key_to_id := (key, cur_id)
                         :: s.key_to_id.filter (fun e => !(e.1 == key)),
          id_to_key := (cur_id, key)
                         :: s.id_to_key.filter (fun e => !(e.1 == cur_id)) }

/-- Inner product, the score of FAISS `IndexFlatIP`. -/
def innerProduct (v w : List ℚ) : ℚ :=
  (List.zipWith (fun a b => a * b) v w).sum

/-- Stable descending insertion by score: an element inserted later lands
after equal-scored earlier ones, matching FAISS returning equal scores in
insertion (id) order. -/
def insertDesc (x : Nat × ℚ) : List (Nat × ℚ) → List (Nat × ℚ)
  | [] => [x]
  | y :: ys => if y.2 < x.2 then x :: y :: ys else y :: insertDesc x ys

/-- Stable sort, best score first. -/
def sortDesc : List (Nat × ℚ) → List (Nat × ℚ)
  | [] => []
  | x :: xs => insertDesc x (sortDesc xs)

/-- Result list of a FAISS `index.search(vector, top_k)` followed by the
Python loop `for dist, idx in zip(...): if idx in self.id_to_key:
results.append((self.id_to_key[idx], dist))`.  The index returns the `top_k`
best inner-product scores in descending order (`-1` padding ids are absent
from `id_to_key` and thus dropped, as is any unmapped id). -/
def VectorStore.searchResults (s : VectorStore) (vector : List ℚ)
    (top_k : Nat) : List (String × ℚ) :=
  let scored := s.entries.map (fun e => (e.1, innerProduct vector e.2))
  ((sortDesc scored).take top_k).filterMap
    (fun r => (s.id_to_key.find? (fun e => e.1 == r.1)).map
                (fun e => (e.2, r.2)))

/-- `VectorStore.search` (inline mode): the whole body runs inside
`try/except Exception` returning `[]` on any error, so a dimension mismatch
(FAISS's internal assertion) yields `[]` — the method itself never raises.
On matching dimension it returns the search results. -/
def VectorStore.search (s : VectorStore) (vector : List ℚ)
    (top_k : Nat := 1) : List (String × ℚ) :=
  if vector.length ≠ s.dim then [] else s.searchResults vector top_k

/-- `VectorStore.search_vectors` (the subprocess worker body): unlike
`search`, it checks the dimension up front and raises `ValueError` on a
mismatch; otherwise it appends the same results to the shared list. -/
def VectorStore.search_vectors (s : VectorStore) (vector : List ℚ)
    (top_k : Nat) : Except String (List (String × ℚ)) :=
  if vector.length ≠ s.dim then .error dimensionMismatchMsg
  else .ok (s.searchResults vector top_k)

/-- `VectorStore.delete_vector`: no-op when the key is unknown; otherwise
removes the id from the index and deletes both mapping entries. -/
def VectorStore.delete_vector (s : VectorStore) (key : String) : VectorStore :=
  match s.key_to_id.find? (fun e => e.1 == key) with
  | none => s
  | some (_, id) =>
      { s with entries := s.entries.filter (fun e => !(e.1 == id)),
               key_to_id := s.key_to_id.filter (fun e => !(e.1 == key)),
               id_to_key := s.id_to_key.filter (fun e => !(e.1 == id)) }

/-- `VectorStore.reset_index_process`: fresh index, cleared mappings,
counter restarted at zero. -/
def VectorStore.reset_index (s : VectorStore) : VectorStore :=
  { s with entries := [], key_to_id := [], id_to_key := [], next_id := 0 }

/-- State of `CacheManager` (cache_manager.py): the three tier components. -/
structure CacheManager (α : Type) where
  persistent : PersistentCache α
  session : SessionCache α
  vector : VectorStore
  deriving Repr, DecidableEq

/-- Tier-3 loop of `CacheManager.get`:
`for sim_key, distance in similar_entries:` re-queries the persistent cache
with each neighbour's key (the `distance` is never compared to anything); on
the first hit it backfills the session cache under the ORIGINAL query's key
and returns; if every lookup misses, the whole `get` returns `None`. -/
def tier3Loop (m : CacheManager α) (key : String) (now : Int) :
    List (String × ℚ) → CacheManager α × Option α
  | [] => (m, none)
  | (sim_key, _) :: rest =>
      match m.persistent.get sim_key now with
      | some r => ({ m with session := m.session.set key r now }, some r)
      | none => tier3Loop m key now rest

/-- `CacheManager.get`: three-tier lookup.  `fp` is `get_cache_key` (the
SHA-256 hex digest, a pure deterministic function); `embed` is
`generate_embedding`, with `none` modelling the raise after exhausted
retries (caught in `get`, which then returns `None`).  Tier 1: session
cache.  Tier 2: persistent cache, backfilling the session cache.  Tier 3:
embed, FAISS search with `top_k=1`, then `tier3Loop`. -/
def CacheManager.get (m : CacheManager α) (fp : String → String)
    (embed : String → Option (List ℚ)) (query : String) (now : Int) :
    CacheManager α × Option α :=
  let key := fp query
  let s1 := m.session.get key now
  let m1 := { m with session := s1.1 }
  match s1.2 with
  | some result => (m1, some result)
  | none =>
      match m1.persistent.get key now with
      | some result =>
          ({ m1 with session := m1.session.set key result now }, some result)
      | none =>
          match embed query with
          | none => (m1, none)
          | some embedding => tier3Loop m1 key now (m1.vector.search embedding 1)

/-- `CacheManager.set`: first `try`-block writes the session cache then the
persistent cache, with `except Exception: logger.error(...)` — the exception
is swallowed.  `exact_fail = true` models an exception raised inside that
block after the session write (e.g. by the durable-store client), leaving
the persistent cache unwritten.  The second `try`-block computes the
embedding and calls `vector_store.add` regardless of the first block's
outcome; a dimension-mismatch `ValueError` from `add_vector` is swallowed
too, keeping the state the error carries.  The `Option String` component is
the exception propagated to the caller: always `none`, since both blocks
catch everything. -/
def CacheManager.set (m : CacheManager α) (fp : String → String)
    (embed : String → Option (List ℚ)) (query : String) (value : α)
    (now : Int) (exact_fail : Bool) : CacheManager α × Option String :=
  let key := fp query
  let m1 :=
    if exact_fail then { m with session := m.session.set key value now }
    else { m with session := m.session.set key value now,
                  persistent := m.persistent.set key value now }
  let m2 :=
    match embed query with
    | none => m1
    | some embedding =>
        match m1.vector.add_vector key embedding with
        | .ok v => { m1 with vector := v }
        | .error (_, v) => { m1 with vector := v }
  (m2, none)

/-- `CacheManager.invalidate`: deletes the fingerprint from the persistent
cache and the session cache (inside a `try` whose body cannot raise in
either adapter); the vector store is not touched. -/
def CacheManager.invalidate (m : CacheManager α) (fp : String → String)
    (query : String) : CacheManager α :=
  let key := fp query
  { m with persistent := m.persistent.delete key,
           session := m.session.delete key }

/-- Operations a client can issue against a `SessionCache` instance. -/
inductive CacheOp (α : Type) where
  | set (key : String) (value : α) (now : Int)
  | get (key : String) (now : Int)
  | delete (key : String)
  deriving Repr, DecidableEq

/-- Applies one operation to a `SessionCache` state. -/
def applyOp (c : SessionCache α) : CacheOp α → SessionCache α
  | .set k v t => c.set k v t
  | .get k t => (c.get k t).1
  | .delete k => c.delete k

/-- Runs a sequence of operations from a starting state. -/
def runOps (c : SessionCache α) (ops : List (CacheOp α)) : SessionCache α :=
  ops.foldl applyOp c

/- Concrete states used in closed theorems below. -/

/-- Concrete 768-dimensional all-zero vector (a valid float32 embedding of
`config.VECTOR_DIM` components). -/
def zeroVec : List ℚ := List.replicate VECTOR_DIM 0

/-- Concrete vector store holding one vector under key `"other"`: the state
after `add_vector "other" zeroVec` on a fresh store. -/
def vsEx : VectorStore :=
  { dim := VECTOR_DIM, entries := [(0, zeroVec)], key_to_id := [("other", 0)],
    id_to_key := [(0, "other")], next_id := 1 }

/-- Concrete empty orchestrator state over `String` values. -/
def mEmpty : CacheManager String :=
  { persistent := { store := [], ttl := 3600 },
    session := SessionCache.init String,
    vector := VectorStore.init }

/-- Concrete orchestrator state: empty session cache, persistent entry
`"other" ↦ "v"` unexpired until time 100, and `vsEx` as the vector store. -/
def mEx : CacheManager String :=
  { persistent := { store := [("other", "v", 100)], ttl := 3600 },
    session := SessionCache.init String,
    vector := vsEx }

/-- Concrete session cache whose single entry (written at time 0, TTL 5) is
expired by time 10. -/
def cExpired : SessionCache String :=
  { cache := [("a", "x", 0)], max_size := 100, ttl := 5, hits := 0, misses := 0 }

/-- Concrete session cache whose single entry is fresh at time 10 (TTL 300). -/
def cFresh : SessionCache String :=
  { cache := [("a", "x", 0)], max_size := 100, ttl := 300, hits := 0,
    misses := 0 }

/-- Concrete session cache with two entries, both written at time 0,
TTL 10, `"a"` in the least-recently-used position. -/
def cTwo : SessionCache String :=
  { cache := [("a", "x", 0), ("b", "y", 0)], max_size := 100, ttl := 10,
    hits := 0, misses := 0 }

/-- Concrete session cache at capacity: two entries, `max_size = 2`. -/
def cFull : SessionCache Nat :=
  { cache := [("a", 1, 0), ("b", 2, 0)], max_size := 2, ttl := 10, hits := 0,
    misses := 0 }

/- Shared helper lemmas. -/

theorem innerProduct_replicate_zero (n : Nat) (w : List ℚ) :
    innerProduct (List.replicate n 0) w = 0 := by
  induction n generalizing w with
  | zero => simp [innerProduct]
  | succ k ih =>
      cases w with
      | nil => simp [innerProduct]
      | cons b bs =>
          simp [innerProduct, List.replicate_succ, List.zipWith] at ih ⊢
          exact ih bs

theorem zeroVec_length : zeroVec.length = VECTOR_DIM := by
  simp [zeroVec]

theorem innerProduct_zeroVec (w : List ℚ) : innerProduct zeroVec w = 0 :=
  innerProduct_replicate_zero VECTOR_DIM w

set_option maxRecDepth 20000 in
theorem vsEx_search : vsEx.search zeroVec 1 = [("other", 0)] := by
  show (if zeroVec.length ≠ vsEx.dim then [] else vsEx.searchResults zeroVec 1)
        = [("other", 0)]
  rw [zeroVec_length]
  show (if VECTOR_DIM ≠ VECTOR_DIM then [] else vsEx.searchResults zeroVec 1)
        = [("other", 0)]
  simp only [ne_eq, not_true_eq_false, if_neg, not_false_eq_true, ite_false]
  show ((sortDesc ([(0, zeroVec)].map
          (fun e => (e.1, innerProduct zeroVec e.2)))).take 1).filterMap
        (fun r => (vsEx.id_to_key.find? (fun e => e.1 == r.1)).map
                    (fun e => (e.2, r.2))) = [("other", 0)]
  rw [List.map_singleton, innerProduct_zeroVec]
  rfl

theorem find?_filter_not_beq (l : List (String × β)) (k : String) :
    (l.filter (fun e => !(e.1 == k))).find? (fun e => e.1 == k) = none := by
  rw [List.find?_eq_none]
  intro x hx
  rcases List.mem_filter.mp hx with ⟨-, hpx⟩
  simpa using hpx

/- C10: add_vector on a mismatched dimension. -/

/-- C10. For every vector whose length differs from the configured dimension,
`VectorStore.add_vector` raises the dimension-mismatch `ValueError` before
any state change: the error carries the state exactly as it was, so the
index contents, both mappings, and the `next_id` counter are untouched. -/
theorem add_vector_dimension_mismatch_leaves_state (s : VectorStore)
    (k : String) (v : List ℚ) (h : v.length ≠ s.dim) :
    s.add_vector k v = .error (dimensionMismatchMsg, s) := by
  unfold VectorStore.add_vector
  rw [if_pos h]

theorem add_vector_dimension_mismatch_witness :
    ([] : List ℚ).length ≠ VectorStore.init.dim ∧
      VectorStore.init.add_vector "k" [] =
        .error (dimensionMismatchMsg, VectorStore.init) := by
  refine ⟨by decide, ?_⟩
  exact add_vector_dimension_mismatch_leaves_state VectorStore.init "k" []
    (by decide)

/- C8: search on a mismatched dimension. -/

/-- C8 as stated is false on the code: the inline `VectorStore.search` wraps
its whole body in `except Exception: return []`, so a dimension-mismatched
query yields the empty RESULT SEQUENCE, not a `DimensionMismatch` failure.
Here `vsEx` is a non-empty index, the query `[]` has length `0 ≠ 768`, and
`search` returns `[]` normally (the model is total: the method cannot
raise). -/
theorem search_dimension_mismatch_counterexample :
    ([] : List ℚ).length ≠ vsEx.dim ∧ vsEx.search ([] : List ℚ) 1 = [] := by
  constructor
  · decide
  · unfold VectorStore.search
    rw [if_pos (by decide)]

/-- C8 amended: on a dimension-mismatched query vector, the inline
`VectorStore.search` catches the index's internal error and returns the
empty list, while the subprocess worker body `search_vectors` is the one
that raises the dimension-mismatch `ValueError`. -/
theorem search_dimension_mismatch_behaviour (s : VectorStore) (v : List ℚ)
    (top_k : Nat) (h : v.length ≠ s.dim) :
    s.search v top_k = [] ∧
      s.search_vectors v top_k = .error dimensionMismatchMsg := by
  constructor
  · unfold VectorStore.search
    rw [if_pos h]
  · unfold VectorStore.search_vectors
    rw [if_pos h]

theorem search_dimension_mismatch_behaviour_witness :
    VectorStore.init.search ([] : List ℚ) 1 = [] ∧
      VectorStore.init.search_vectors ([] : List ℚ) 1 =
        .error dimensionMismatchMsg :=
  search_dimension_mismatch_behaviour VectorStore.init [] 1 (by decide)

/- C9: invalidate deletes the exact-tier entries and leaves the vector store
untouched. -/

/-- C9. `CacheManager.invalidate` deletes the query's fingerprint entry from
the session cache and the persistent cache (afterwards neither holds an
entry for that key) and leaves the vector store completely unchanged — the
index contents, the key-to-id and id-to-key mappings, and the `next_id`
counter are all exactly as before. -/
theorem invalidate_frame (m : CacheManager α) (fp : String → String)
    (query : String) :
    (m.invalidate fp query).vector = m.vector ∧
      (m.invalidate fp query).vector.entries = m.vector.entries ∧
      (m.invalidate fp query).vector.key_to_id = m.vector.key_to_id ∧
      (m.invalidate fp query).vector.id_to_key = m.vector.id_to_key ∧
      (m.invalidate fp query).vector.next_id = m.vector.next_id ∧
      (m.invalidate fp query).session = m.session.delete (fp query) ∧
      (m.invalidate fp query).persistent = m.persistent.delete (fp query) ∧
      (m.invalidate fp query).session.cache.find?
          (fun e => e.1 == fp query) = none ∧
      (m.invalidate fp query).persistent.store.find?
          (fun e => e.1 == fp query) = none := by
  refine ⟨rfl, rfl, rfl, rfl, rfl, rfl, rfl, ?_, ?_⟩
  · exact find?_filter_not_beq m.session.cache (fp query)
  · exact find?_filter_not_beq m.persistent.store (fp query)

/- C3: error reporting of CacheManager.set. -/

set_option maxRecDepth 20000 in
theorem mEmpty_add_vector :
    VectorStore.init.add_vector "q" zeroVec =
      .ok { dim := VECTOR_DIM, entries := [(0, zeroVec)],
            key_to_id := [("q", 0)], id_to_key := [(0, "q")],
            next_id := 1 } := by
  unfold VectorStore.add_vector
  rw [if_neg (by rw [zeroVec_length]; simp [VectorStore.init])]
  rfl

/-- C3 as stated is false on the code: with an exception in the exact-tier
write block (modelled by `exact_fail = true`, persistent write lost), `set`
still returns without reporting any failure (the caught exception is only
logged) and the vector-index write is still attempted and succeeds — here
the fingerprint lands in `key_to_id` even though the persistent store was
never written. -/
theorem set_exact_failure_counterexample :
    (mEmpty.set id (fun _ => some zeroVec) "q" "val" 0 true).2 = none ∧
      (mEmpty.set id (fun _ => some zeroVec) "q" "val" 0 true).1.persistent
        = mEmpty.persistent ∧
      (mEmpty.set id (fun _ => some zeroVec) "q" "val" 0 true).1.vector.key_to_id
        = [("q", 0)] := by
  refine ⟨rfl, ?_, ?_⟩ <;>
    simp [CacheManager.set, mEmpty, mEmpty_add_vector]

/-- C3 amended: `CacheManager.set` never reports a failure to its caller
(both `try` blocks swallow their exceptions), the vector-index write is
attempted identically whether or not the exact-tier block failed, and in
the non-failing run both exact-tier writes are performed (session first,
then persistent). -/
theorem set_failure_swallowed (m : CacheManager α) (fp : String → String)
    (embed : String → Option (List ℚ)) (query : String) (value : α)
    (now : Int) (exact_fail : Bool) :
    (m.set fp embed query value now exact_fail).2 = none ∧
      (m.set fp embed query value now true).1.vector
        = (m.set fp embed query value now false).1.vector ∧
      (m.set fp embed query value now false).1.session
        = m.session.set (fp query) value now ∧
      (m.set fp embed query value now false).1.persistent
        = m.persistent.set (fp query) value now := by
  refine ⟨rfl, ?_, ?_, ?_⟩ <;>
    cases h : embed query with
    | none => simp [CacheManager.set, h]
    | some e =>
        cases h2 : m.vector.add_vector (fp query) e with
        | ok v => simp [CacheManager.set, h, h2]
        | error p => simp [CacheManager.set, h, h2]

/- C4: counters incremented by SessionCache.get. -/

/-- C4 as stated is false on the code: `SessionCache` maintains only the two
counters `hits` and `misses` (no `evictions` counter and no metrics-snapshot
method exist).  Here the key `"a"` is present but expired at time 10, and
`get` increments `misses` — not an eviction counter — while removing the
entry. -/
theorem get_expired_increments_misses_counterexample :
    (cExpired.cache.find? (fun e => e.1 == "a")).isSome = true ∧
      (cExpired.get "a" 10).2 = none ∧
      (cExpired.get "a" 10).1.hits = 0 ∧
      (cExpired.get "a" 10).1.misses = 1 ∧
      (cExpired.get "a" 10).1.cache = [] := by
  decide

/-- C4 amended: every `SessionCache.get` increments exactly one of the two
counters `hits` and `misses` — `hits` when a non-expired present key is
returned, `misses` when the key is absent or present but expired (the
expired entry is also removed); the code has no `evictions` counter and no
metrics snapshot operation. -/
theorem get_increments_exactly_one_counter (c : SessionCache α)
    (key : String) (now : Int) :
    (c.get key now).1.hits + (c.get key now).1.misses
        = c.hits + c.misses + 1 ∧
      ((c.get key now).2.isSome →
        (c.get key now).1.hits = c.hits + 1 ∧
          (c.get key now).1.misses = c.misses) ∧
      ((c.get key now).2.isNone →
        (c.get key now).1.misses = c.misses + 1 ∧
          (c.get key now).1.hits = c.hits) := by
  unfold SessionCache.get
  cases h : c.cache.find? (fun e => e.1 == key) with
  | none => simp; omega
  | some e =>
      obtain ⟨k1, v1, t1⟩ := e
      by_cases hf : now - t1 < c.ttl
      · simp [hf]; omega
      · simp [hf]; omega

theorem get_increments_exactly_one_counter_witness :
    (cExpired.get "a" 10).1.misses = cExpired.misses + 1 ∧
      (cFresh.get "a" 10).1.hits = cFresh.hits + 1 := by
  refine ⟨((get_increments_exactly_one_counter cExpired "a" 10).2.2
            (by decide)).1,
          ((get_increments_exactly_one_counter cFresh "a" 10).2.1
            (by decide)).1⟩

/- C6: what a hit refreshes. -/

/-- C6 as stated is false on the code: `SessionCache.get` on a hit calls
`move_to_end` but stores the entry back with its ORIGINAL timestamp — the
TTL clock is not restarted.  Here `"a"` (written at time 0) is hit at time
5: it moves to the most-recently-used end, but its timestamp stays 0; no
entry carries the hit time 5. -/
theorem hit_keeps_old_timestamp_counterexample :
    (cTwo.get "a" 5).2 = some "x" ∧
      (cTwo.get "a" 5).1.cache = [("b", "y", 0), ("a", "x", 0)] ∧
      ((cTwo.get "a" 5).1.cache.find? (fun e => e.2.2 == (5 : Int)))
        = none := by
  decide

/-- C6 amended: on every hit, `SessionCache.get` bumps the entry to the
most-recently-used end with its value AND ORIGINAL TIMESTAMP unchanged (the
TTL age keeps running from the original write), and increments `hits`. -/
theorem hit_bumps_recency_keeps_timestamp (c : SessionCache α)
    (key : String) (v : α) (ts now : Int)
    (hfind : c.cache.find? (fun e => e.1 == key) = some (key, v, ts))
    (hfresh : now - ts < c.ttl) :
    (c.get key now).2 = some v ∧
      (c.get key now).1.cache
        = c.cache.filter (fun e => !(e.1 == key)) ++ [(key, v, ts)] ∧
      (c.get key now).1.hits = c.hits + 1 := by
  unfold SessionCache.get
  rw [hfind]
  simp [hfresh]

theorem hit_bumps_recency_keeps_timestamp_witness :
    (cTwo.get "a" 5).2 = some "x" ∧
      (cTwo.get "a" 5).1.cache
        = cTwo.cache.filter (fun e => !(e.1 == "a")) ++ [("a", "x", 0)] := by
  have h := hit_bumps_recency_keeps_timestamp cTwo "a" "x" 0 5
    (by decide) (by decide)
  exact ⟨h.1, h.2.1⟩

/- C7: set on an already-present key. -/

/-- C7 as stated is false on the code: `self.cache[key] = (value, time)` on
an existing key is a plain `OrderedDict` assignment, which updates the value
IN PLACE and does not move the key to the most-recently-used end.  With
capacity 2: after `set a, set b, set a(update)`, the order is still
`[a, b]` — `a` was not bumped — and the next insert `set c` evicts `a`
(the claim would have `a` as most-recently-used and `b` evicted). -/
theorem set_existing_key_not_mru_counterexample :
    (runOps (SessionCache.init Nat 2 10)
        [.set "a" 1 0, .set "b" 2 0, .set "a" 9 0]).cache
      = [("a", 9, 0), ("b", 2, 0)] ∧
      (runOps (SessionCache.init Nat 2 10)
          [.set "a" 1 0, .set "b" 2 0, .set "a" 9 0, .set "c" 3 0]).cache
        = [("b", 2, 0), ("c", 3, 0)] := by
  decide

/-- C7 amended: `SessionCache.set` on an already-present key replaces the
entry's value and timestamp IN PLACE, preserving its recency position (it
is not marked most-recently-used), and evicts nothing when the cache was
within capacity. -/
theorem set_existing_key_in_place (c : SessionCache α) (k : String) (v : α)
    (t : Int) (hmem : c.cache.any (fun e => e.1 == k) = true)
    (hlen : c.cache.length ≤ c.max_size) :
    (c.set k v t).cache
      = c.cache.map (fun e => if e.1 == k then (k, v, t) else e) := by
  simp only [SessionCache.set, hmem, if_true]
  rw [if_neg]
  rw [List.length_map]
  omega

theorem set_existing_key_in_place_witness :
    (cTwo.set "a" "z" 7).cache
      = cTwo.cache.map (fun e => if e.1 == "a" then ("a", "z", 7) else e) :=
  set_existing_key_in_place cTwo "a" "z" 7 (by decide) (by decide)

/- C5: capacity invariant and exact LRU eviction. -/

theorem length_filter_lt_of_mem (l : List β) (p : β → Bool) (x : β)
    (hx : x ∈ l) (hpx : p x = true) :
    (l.filter (fun e => !(p e))).length < l.length := by
  induction l with
  | nil => cases hx
  | cons y ys ih =>
      by_cases hy : p y = true
      · have hle : (ys.filter (fun e => !(p e))).length ≤ ys.length :=
          List.length_filter_le _ _
        simp [List.filter_cons, hy]
        omega
      · rcases List.mem_cons.mp hx with hxy | hmem
        · exact absurd (hxy ▸ hpx) hy
        · have := ih hmem
          simp [List.filter_cons, hy]
          omega

theorem ite_tail_length (l : List β) (m : Nat) (h : l.length ≤ m + 1) :
    (if l.length > m then l.tail else l).length ≤ m := by
  split
  · rw [List.length_tail]
    omega
  · next hng => omega

theorem sessionSet_cache (c : SessionCache α) (k : String) (v : α) (t : Int) :
    (c.set k v t).cache
      = (if (if c.cache.any (fun e => e.1 == k)
             then c.cache.map (fun e => if e.1 == k then (k, v, t) else e)
             else c.cache ++ [(k, v, t)]).length > c.max_size
         then (if c.cache.any (fun e => e.1 == k)
               then c.cache.map (fun e => if e.1 == k then (k, v, t) else e)
               else c.cache ++ [(k, v, t)]).tail
         else (if c.cache.any (fun e => e.1 == k)
               then c.cache.map (fun e => if e.1 == k then (k, v, t) else e)
               else c.cache ++ [(k, v, t)])) := rfl

theorem sessionSet_length_le (c : SessionCache α) (k : String) (v : α)
    (t : Int) (h : c.cache.length ≤ c.max_size) :
    (c.set k v t).cache.length ≤ c.max_size := by
  rw [sessionSet_cache]
  apply ite_tail_length
  by_cases hmem : c.cache.any (fun e => e.1 == k) = true
  · rw [if_pos hmem, List.length_map]
    omega
  · rw [if_neg hmem, List.length_append]
    simp
    omega

theorem sessionGet_length_le (c : SessionCache α) (k : String) (now : Int)
    (h : c.cache.length ≤ c.max_size) :
    ((c.get k now).1).cache.length ≤ c.max_size := by
  unfold SessionCache.get
  cases hfind : c.cache.find? (fun e => e.1 == k) with
  | none => simpa using h
  | some e =>
      obtain ⟨k1, v1, t1⟩ := e
      have hmem := List.mem_of_find?_eq_some hfind
      have hpred := List.find?_some hfind
      have hlt : (c.cache.filter (fun e => !(e.1 == k))).length
          < c.cache.length :=
        length_filter_lt_of_mem c.cache (fun e => e.1 == k)
          (k1, v1, t1) hmem hpred
      by_cases hf : now - t1 < c.ttl
      · simp only [hf, if_true]
        show (c.cache.filter (fun e => !(e.1 == k))
                ++ [(k, v1, t1)]).length ≤ c.max_size
        rw [List.length_append]
        have hone : ([(k, v1, t1)] : List (String × α × Int)).length = 1 := rfl
        omega
      · simp only [hf, if_false]
        show (c.cache.filter (fun e => !(e.1 == k))).length ≤ c.max_size
        omega

theorem sessionGet_max_size (c : SessionCache α) (k : String) (now : Int) :
    ((c.get k now).1).max_size = c.max_size := by
  unfold SessionCache.get
  cases hfind : c.cache.find? (fun e => e.1 == k) with
  | none => rfl
  | some e =>
      obtain ⟨k1, v1, t1⟩ := e
      by_cases hf : now - t1 < c.ttl <;> simp [hf]

theorem applyOp_preserves (c : SessionCache α) (op : CacheOp α) :
    (applyOp c op).max_size = c.max_size ∧
      (c.cache.length ≤ c.max_size →
        (applyOp c op).cache.length ≤ c.max_size) := by
  cases op with
  | set k v t => exact ⟨rfl, sessionSet_length_le c k v t⟩
  | get k t => exact ⟨sessionGet_max_size c k t, sessionGet_length_le c k t⟩
  | delete k =>
      refine ⟨rfl, fun h => ?_⟩
      have := List.length_filter_le (fun e => !(e.1 == k)) c.cache
      simp only [applyOp, SessionCache.delete]
      omega

theorem runOps_length_le (ops : List (CacheOp α)) (c : SessionCache α)
    (h : c.cache.length ≤ c.max_size) :
    (runOps c ops).cache.length ≤ c.max_size := by
  induction ops generalizing c with
  | nil => exact h
  | cons op rest ih =>
      have hstep := applyOp_preserves c op
      have hrec := ih (applyOp c op) (by rw [hstep.1]; exact hstep.2 h)
      rw [hstep.1] at hrec
      exact hrec

/-- C5. Starting from any state within capacity (in particular the empty
initial cache), no sequence of `set`/`get`/`delete` calls ever pushes the
number of stored entries above `max_size`; and a `set` of a fresh key on a
full cache (capacity ≥ 1) evicts exactly the least-recently-used entry (the
head of the order list) and nothing else: the result is the old list minus
its head, with the new entry appended at the most-recently-used end. -/
theorem capacity_invariant_and_lru_eviction (c : SessionCache α)
    (ops : List (CacheOp α)) (h : c.cache.length ≤ c.max_size) :
    (runOps c ops).cache.length ≤ c.max_size ∧
      ∀ k v t, 1 ≤ c.max_size → c.cache.length = c.max_size →
        (∀ e ∈ c.cache, e.1 ≠ k) →
        (c.set k v t).cache = c.cache.tail ++ [(k, v, t)] := by
  refine ⟨runOps_length_le ops c h, fun k v t h1 h2 hnotin => ?_⟩
  have hany : c.cache.any (fun e => e.1 == k) = false := by
    rw [List.any_eq_false]
    intro e he
    simpa using hnotin e he
  rw [sessionSet_cache]
  simp only [hany, Bool.false_eq_true, if_false]
  rw [if_pos]
  · cases hc : c.cache with
    | nil =>
        rw [hc] at h2
        simp at h2
        omega
    | cons a as => simp
  · rw [List.length_append]
    have hone : ([(k, v, t)] : List (String × α × Int)).length = 1 := rfl
    omega

theorem capacity_invariant_and_lru_eviction_witness :
    (runOps cFull [.get "a" 1, .set "c" 3 1, .delete "b"]).cache.length ≤ 2 ∧
      (cFull.set "c" 3 1).cache = [("b", 2, 0), ("c", 3, 1)] := by
  have H := capacity_invariant_and_lru_eviction cFull
    [.get "a" 1, .set "c" 3 1, .delete "b"] (by decide)
  refine ⟨H.1, ?_⟩
  have h2 := H.2 "c" 3 1 (by decide) (by decide) (by decide)
  rw [h2]
  decide

/- C2: set/get round trip through the orchestrator. -/

theorem mem_of_mem_ite_tail {b : Prop} [Decidable b] {l : List β} {e : β}
    (he : e ∈ (if b then l.tail else l)) : e ∈ l := by
  split at he
  · cases l with
    | nil => cases he
    | cons a as => exact List.mem_cons_of_mem a he
  · exact he

theorem sessionSet_mem (c : SessionCache α) (k : String) (v : α) (t : Int)
    (e : String × α × Int) (he : e ∈ (c.set k v t).cache) (hek : e.1 = k) :
    e = (k, v, t) := by
  rw [sessionSet_cache] at he
  have he' := mem_of_mem_ite_tail he
  by_cases hmem : c.cache.any (fun x => x.1 == k) = true
  · rw [if_pos hmem] at he'
    rcases List.mem_map.mp he' with ⟨x, hx, hfx⟩
    by_cases hxk : (x.1 == k) = true
    · rw [if_pos hxk] at hfx
      exact hfx.symm
    · rw [if_neg hxk] at hfx
      subst hfx
      exact absurd (by simpa using hek) hxk
  · rw [if_neg hmem] at he'
    have hfalse : c.cache.any (fun x => x.1 == k) = false :=
      Bool.eq_false_iff.mpr hmem
    rcases List.mem_append.mp he' with hl | hr
    · have hne := List.any_eq_false.mp hfalse e hl
      exact absurd (by simpa using hek) hne
    · simpa using hr

theorem sessionGet_hit (c : SessionCache α) (key : String) (v : α)
    (ts now : Int)
    (hfind : c.cache.find? (fun e => e.1 == key) = some (key, v, ts))
    (hfresh : now - ts < c.ttl) :
    (c.get key now).2 = some v := by
  unfold SessionCache.get
  rw [hfind]
  simp [hfresh]

theorem sessionGet_none_of_find?_none (c : SessionCache α) (k : String)
    (now : Int) (h : c.cache.find? (fun e => e.1 == k) = none) :
    (c.get k now).2 = none := by
  unfold SessionCache.get
  rw [h]

theorem persistentSet_get (p : PersistentCache α) (k : String) (v : α)
    (now : Int) (hp : 0 < p.ttl) :
    (p.set k v now).get k now = some v := by
  have hst : (p.set k v now).store
      = (k, v, now + p.ttl) :: p.store.filter (fun e => !(e.1 == k)) := rfl
  unfold PersistentCache.get
  rw [hst, List.find?_cons_of_pos _ (by simp)]
  show (if now < now + p.ttl then some v else none) = some v
  rw [if_pos (by omega)]

theorem managerSet_components (m : CacheManager α) (fp : String → String)
    (embed : String → Option (List ℚ)) (q : String) (v : α) (now : Int) :
    (m.set fp embed q v now false).1.session = m.session.set (fp q) v now ∧
      (m.set fp embed q v now false).1.persistent
        = m.persistent.set (fp q) v now := by
  cases h : embed q with
  | none => exact ⟨by simp [CacheManager.set, h], by simp [CacheManager.set, h]⟩
  | some e =>
      cases h2 : m.vector.add_vector (fp q) e with
      | ok w =>
          exact ⟨by simp [CacheManager.set, h, h2],
                 by simp [CacheManager.set, h, h2]⟩
      | error p2 =>
          exact ⟨by simp [CacheManager.set, h, h2],
                 by simp [CacheManager.set, h, h2]⟩

theorem managerGet_tier1 (m : CacheManager α) (fp : String → String)
    (embed : String → Option (List ℚ)) (q : String) (now : Int) (v : α)
    (h : (m.session.get (fp q) now).2 = some v) :
    (m.get fp embed q now).2 = some v := by
  simp [CacheManager.get, h]

theorem managerGet_tier2 (m : CacheManager α) (fp : String → String)
    (embed : String → Option (List ℚ)) (q : String) (now : Int) (v : α)
    (h1 : (m.session.get (fp q) now).2 = none)
    (h2 : m.persistent.get (fp q) now = some v) :
    (m.get fp embed q now).2 = some v := by
  simp [CacheManager.get, h1, h2]

theorem managerGet_tier3 (m : CacheManager α) (fp : String → String)
    (embed : String → Option (List ℚ)) (q : String) (now : Int) (e : List ℚ)
    (h1 : (m.session.get (fp q) now).2 = none)
    (h2 : m.persistent.get (fp q) now = none)
    (h3 : embed q = some e) :
    m.get fp embed q now
      = tier3Loop { m with session := (m.session.get (fp q) now).1 } (fp q)
          now (m.vector.search e 1) := by
  simp [CacheManager.get, h1, h2, h3]

/-- C2. After `CacheOrchestrator.set(query, value)` with positive session and
durable TTLs and no intervening operations, `get(query)` at the same instant
returns `value`: either the session cache still holds the fresh entry
(tier 1), or — if the session write was immediately evicted (capacity 0) —
the persistent entry answers at tier 2. -/
theorem set_then_get_round_trip (m : CacheManager α) (fp : String → String)
    (embed embed2 : String → Option (List ℚ)) (q : String) (v : α)
    (now : Int) (hs : 0 < m.session.ttl) (hp : 0 < m.persistent.ttl) :
    (((m.set fp embed q v now false).1).get fp embed2 q now).2 = some v := by
  obtain ⟨hsess, hpers⟩ := managerSet_components m fp embed q v now
  cases hfind : (m.set fp embed q v now false).1.session.cache.find?
      (fun e => e.1 == fp q) with
  | some e3 =>
      obtain ⟨k1, v1, t1⟩ := e3
      have hpred := List.find?_some hfind
      have hmem3 := List.mem_of_find?_eq_some hfind
      rw [hsess] at hmem3
      have hk1 : k1 = fp q := by simpa using hpred
      have he : (k1, v1, t1) = (fp q, v, now) :=
        sessionSet_mem m.session (fp q) v now (k1, v1, t1) hmem3 hk1
      obtain ⟨hk2, hv, ht⟩ : k1 = fp q ∧ v1 = v ∧ t1 = now := by
        simpa using he
      apply managerGet_tier1
      have httl : (m.set fp embed q v now false).1.session.ttl
          = m.session.ttl := by rw [hsess]; rfl
      have hfind2 : (m.set fp embed q v now false).1.session.cache.find?
          (fun e => e.1 == fp q) = some (fp q, v, now) := by
        rw [hfind, hk2, hv, ht]
      exact sessionGet_hit _ (fp q) v now now hfind2
        (by rw [httl]; simpa using hs)
  | none =>
      apply managerGet_tier2
      · exact sessionGet_none_of_find?_none _ (fp q) now hfind
      · rw [hpers]
        exact persistentSet_get m.persistent (fp q) v now hp

theorem set_then_get_round_trip_witness :
    ((mEmpty.set id (fun _ => none) "q" "42" 0 false).1.get id
        (fun _ => none) "q" 0).2 = some "42" :=
  set_then_get_round_trip mEmpty id (fun _ => none) (fun _ => none) "q" "42" 0
    (by decide) (by decide)

/- C1: the semantic-fallback threshold decision. -/

theorem tier3Loop_all_miss (m : CacheManager α) (key : String) (now : Int)
    (l : List (String × ℚ))
    (h : ∀ p ∈ l, m.persistent.get p.1 now = none) :
    (tier3Loop m key now l).2 = none := by
  induction l with
  | nil => rfl
  | cons x rest ih =>
      obtain ⟨nk, s⟩ := x
      have hx := h (nk, s) (List.mem_cons_self _ _)
      simp only [tier3Loop]
      rw [hx]
      exact ih (fun p hp => h p (List.mem_cons_of_mem _ hp))

theorem tier3Loop_head_hit (m : CacheManager α) (key : String) (now : Int)
    (nk : String) (s : ℚ) (rest : List (String × ℚ)) (v : α)
    (h : m.persistent.get nk now = some v) :
    (tier3Loop m key now ((nk, s) :: rest)).2 = some v := by
  simp only [tier3Loop]
  rw [h]

/-- C1 as stated is false on the code: `CacheManager.get` never consults
`config.SIMILARITY_THRESHOLD`.  In this concrete tier-3 lookup (session
miss, persistent miss for the query's own key, embedding available) the
sole nearest neighbour `"other"` has inner-product score `0`, which does
NOT satisfy the threshold `0.5` (inner product: higher is closer), yet
`get` re-queries the persistent store with `"other"` and returns its value
`"v"` instead of absent. -/
theorem semantic_fallback_threshold_counterexample :
    (mEx.session.get "query" 0).2 = none ∧
      mEx.persistent.get "query" 0 = none ∧
      mEx.vector.search zeroVec 1 = [("other", 0)] ∧
      ¬ SIMILARITY_THRESHOLD ≤ 0 ∧
      (mEx.get id (fun _ => some zeroVec) "query" 0).2 = some "v" := by
  refine ⟨rfl, rfl, vsEx_search, by norm_num [SIMILARITY_THRESHOLD], ?_⟩
  have ht := managerGet_tier3 mEx id (fun _ => some zeroVec) "query" 0
    zeroVec rfl rfl rfl
  rw [ht, show mEx.vector.search zeroVec 1 = [("other", 0)] from vsEx_search]
  exact tier3Loop_head_hit _ "query" 0 "other" 0 [] "v" rfl

/-- C1 amended: in a tier-3 lookup (session miss, persistent miss for the
query's key, embedding generated), `CacheManager.get` re-queries the
persistent store with EVERY returned neighbour's fingerprint regardless of
its similarity score — the configured threshold is never consulted: if the
first neighbour's fingerprint is in the persistent store, its value is
returned whatever the score; `get` returns absent exactly when every
neighbour's persistent lookup misses. -/
theorem semantic_fallback_ignores_threshold (m : CacheManager α)
    (fp : String → String) (embed : String → Option (List ℚ)) (q : String)
    (now : Int) (e : List ℚ)
    (h1 : (m.session.get (fp q) now).2 = none)
    (h2 : m.persistent.get (fp q) now = none)
    (h3 : embed q = some e) :
    ((∀ p ∈ m.vector.search e 1, m.persistent.get p.1 now = none) →
        (m.get fp embed q now).2 = none) ∧
      (∀ nk s rest v, m.vector.search e 1 = (nk, s) :: rest →
        m.persistent.get nk now = some v →
        (m.get fp embed q now).2 = some v) := by
  have ht := managerGet_tier3 m fp embed q now e h1 h2 h3
  constructor
  · intro hall
    rw [ht]
    exact tier3Loop_all_miss _ (fp q) now _ hall
  · intro nk s rest v hsearch hhit
    rw [ht, hsearch]
    exact tier3Loop_head_hit _ (fp q) now nk s rest v hhit

theorem semantic_fallback_ignores_threshold_witness :
    (mEx.get id (fun _ => some zeroVec) "query" 0).2 = some "v" := by
  have H := semantic_fallback_ignores_threshold mEx id
    (fun _ => some zeroVec) "query" 0 zeroVec rfl rfl rfl
  exact H.2 "other" 0 [] "v" vsEx_search rfl
